import Mathlib

/-!
Verification development for the person-registry program (src/individuals/ind1.py).

Python values that flow through the program (parsed JSON documents, the
records built by add_person, the values compared by select_people) are
modelled by the inductive type Json below.  Python None is Json.null,
Python dicts are ordered association lists (keys unique in any dict that
Python can actually build; lookups take the first occurrence), and numbers
are collapsed to Int, which is enough because the program never computes
with numeric JSON values, it only type-checks them.
-/

inductive Json where
  | null : Json
  | bool (b : Bool) : Json
  | num (n : Int) : Json
  | str (s : String) : Json
  | arr (items : List Json) : Json
  | obj (kvs : List (String × Json)) : Json

namespace Json

/-- First-occurrence lookup in an association list, mirroring Python dict
access (Python dicts cannot hold duplicate keys, so on dict-representable
objects this is exact). -/
def lookupKey (kvs : List (String × Json)) (k : String) : Option Json :=
  match kvs with
  | [] => none
  | (k', v) :: rest => if k' = k then some v else lookupKey rest k

/-- Dictionary lookup on a Json value: some v when the value is an object
holding key k. -/
def getKey (j : Json) (k : String) : Option Json :=
  match j with
  | .obj kvs => lookupKey kvs k
  | _ => none

/-- Python d.get(k, dflt) on an object. -/
def getD (j : Json) (k : String) (dflt : Json) : Json :=
  (getKey j k).getD dflt

def isStr : Json → Bool
  | .str _ => true
  | _ => false

/-- The jsonschema check for the birthday property: type array whose items
have type string.  The source also writes a key minitems in the schema, but
minitems is not a jsonschema keyword (the keyword is spelled minItems), so
the library ignores it and no length constraint is enforced. -/
def isStrArr : Json → Bool
  | .arr items => items.all isStr
  | _ => false

end Json

/-!
Schema Validator (source: validation, ind1.py lines 13-36).

The source hands the instance to jsonschema.validate with the schema
written in the file: top level type array; items must be objects; the
properties surname, name and zodiac must be strings when present and
birthday must be an array of strings when present; surname, name and
birthday are required.  jsonschema type-checks each listed property only
when that key is present, required checks presence, extra properties are
unconstrained, and the stray minitems key is not a recognised keyword
and is ignored.  The Python function returns True on success and False
when a ValidationError is raised (the error message is only printed).
-/

/-- jsonschema check of one schema property: passes when the key is absent,
otherwise the value must satisfy the type check. -/
def propOk (kvs : List (String × Json)) (k : String) (check : Json → Bool) : Bool :=
  match Json.lookupKey kvs k with
  | none => true
  | some v => check v

/-- The per-element check of the items schema: an object whose present
properties among surname, name, zodiac, birthday have the schema types,
with surname, name and birthday required. -/
def validPerson (j : Json) : Bool :=
  match j with
  | .obj kvs =>
      propOk kvs "surname" Json.isStr &&
      propOk kvs "name" Json.isStr &&
      propOk kvs "zodiac" Json.isStr &&
      propOk kvs "birthday" Json.isStrArr &&
      (Json.lookupKey kvs "surname").isSome &&
      (Json.lookupKey kvs "name").isSome &&
      (Json.lookupKey kvs "birthday").isSome
  | _ => false

/-- validation (ind1.py 13-36): true iff the document conforms to the
schema above. -/
def validation (doc : Json) : Bool :=
  match doc with
  | .arr l => l.all validPerson
  | _ => false

/-!
Document Store (source: load_people lines 39-46, save_people lines 49-51).

Files are modelled at the parsed-document boundary the spec draws: a file
either holds text that json.load parses to a Json value, or text that is
not valid JSON (json.dump always emits valid JSON, so save always stores
the json case).  A file system maps paths to file contents; a missing
path is none, and opening it raises (FileNotFoundError, an OSError).
-/

inductive FileData where
  | json (j : Json) : FileData
  | malformed : FileData

/-- A file system: path to contents. -/
def FS : Type := String → Option FileData

/-- The error taxonomy of a run, following section 7 of the design:
ioError for OSError (open failing), parseFailure for
json.JSONDecodeError, malformedDateError for the ValueError raised by
datetime.strptime during the sort. -/
inductive RunError where
  | ioError : RunError
  | parseFailure : RunError
  | malformedDateError : RunError

/-- load_people (ind1.py 39-46): open the file (OSError if absent),
json.load it (JSONDecodeError if malformed), validate; returns the list on
success and None (here: none) when validation fails.  A validated document
is necessarily an array, returned as its element list. -/
def load_people (fs : FS) (file_name : String) : Except RunError (Option (List Json)) :=
  match fs file_name with
  | none => .error .ioError
  | some .malformed => .error .parseFailure
  | some (.json (.arr l)) => if validation (.arr l) then .ok (some l) else .ok none
  | some (.json _) => .ok none

/-- save_people (ind1.py 49-51): serialise the list as a JSON array and
overwrite the file. -/
def save_people (fs : FS) (file_name : String) (people_list : List Json) : FS :=
  fun p => if p = file_name then some (.json (.arr people_list)) else fs p

/-!
Record Operations (source: add_person lines 54-65, select_people lines
99-107).
-/

/-- Helper for splitDot: walk the characters, cutting at every dot, with
the current token's characters accumulated in reverse. -/
def splitDotAux : List Char → List Char → List String
  | [], acc => [String.mk acc.reverse]
  | c :: cs, acc =>
      if c = '.' then String.mk acc.reverse :: splitDotAux cs []
      else splitDotAux cs (c :: acc)

/-- Python str.split on the literal dot separator: cut the string at every
dot (the empty string splits to a list holding one empty token). -/
def splitDot (s : String) : List String :=
  splitDotAux s.data []

/-- The zodiac argument reaching add_person is args.zodiac, a string or
None (the -z flag is optional and defaults to None). -/
def zodiacVal (zodiac : Option String) : Json :=
  match zodiac with
  | some z => .str z
  | none => .null

/-- add_person (ind1.py 54-65): append to the collection one dict built
from the four inputs, with the birthday text split on the dot, and return
the collection. -/
def add_person (people : List Json) (surname name : String)
    (zodiac : Option String) (birthday : String) : List Json :=
  people ++ [Json.obj [("surname", .str surname), ("name", .str name),
    ("zodiac", zodiacVal zodiac), ("birthday", .arr ((splitDot birthday).map .str))]]

/-- Python equality between a value i.get returned and the query string:
true iff the value is that very string (Python == between a str and a
non-str is False). -/
def eqStr (j : Json) (s : String) : Bool :=
  match j with
  | .str t => t = s
  | _ => false

/-- select_people (ind1.py 99-107): scan the collection, appending to the
result every record whose surname (defaulting to the empty string when the
key is absent) equals the query string. -/
def select_people (surname : String) (people : List Json) : List Json :=
  people.foldl (fun result i =>
    if eqStr (i.getD "surname" (.str "")) surname then result ++ [i] else result) []

/-!
Chronological Sorter (source: main, ind1.py lines 197-201).

The sort key of a record x is datetime.strptime of the string joining
x's birthday tokens with a dot, format day.month.Year.  CPython strptime
with that format accepts exactly: one or two ASCII digits with value 1-31,
a dot, one or two ASCII digits with value 1-12, a dot, exactly four ASCII
digits, end of string; datetime construction then requires year at least 1
and the day to exist in that month of the proleptic Gregorian calendar.
Any failure raises ValueError.  datetime values compare lexicographically
by (year, month, day).
-/

structure Date where
  year : Nat
  month : Nat
  day : Nat

/-- Proleptic Gregorian leap-year rule, as datetime uses. -/
def isLeap (y : Nat) : Bool :=
  y % 4 = 0 && (y % 100 ≠ 0 || y % 400 = 0)

def daysInMonth (y m : Nat) : Nat :=
  if m = 2 then (if isLeap y then 29 else 28)
  else if m = 4 || m = 6 || m = 9 || m = 11 then 30
  else 31

/-- The numeric value of one ASCII digit. -/
def digitVal? (c : Char) : Option Nat :=
  if '0' ≤ c ∧ c ≤ '9' then some (c.toNat - '0'.toNat) else none

/-- The number a token denotes: some iff the token is non-empty and all
ASCII digits. -/
def tokenNat? (s : String) : Option Nat :=
  match s.data with
  | [] => none
  | cs => cs.foldl (fun acc c =>
      match acc, digitVal? c with
      | some n, some d => some (n * 10 + d)
      | _, _ => none) (some 0)

/-- A day or month field: one or two ASCII digits (strptime's regex for
the d and m directives admits no more), read as a number. -/
def fieldNat (s : String) : Option Nat :=
  if s.length ≤ 2 then tokenNat? s else none

/-- Model of datetime.strptime(s, d.m.Y format) followed by datetime
construction: some date iff s is a valid day.month.year date as described
above, none when strptime or datetime would raise ValueError. -/
def parseDate (s : String) : Option Date :=
  match splitDot s with
  | [ds, ms, ys] =>
      match fieldNat ds, fieldNat ms, tokenNat? ys with
      | some d, some m, some y =>
          if 1 ≤ d && d ≤ 31 && 1 ≤ m && m ≤ 12 && ys.length = 4 && 1 ≤ y
              && d ≤ daysInMonth y m
          then some ⟨y, m, d⟩ else none
      | _, _, _ => none
  | _ => none

/-- Lexicographic order on (year, month, day): how datetime values
compare. -/
def dateLE (a b : Date) : Bool :=
  decide (a.year < b.year ∨ (a.year = b.year ∧
    (a.month < b.month ∨ (a.month = b.month ∧ a.day ≤ b.day))))

/-- The birthday token list of a record: x gets key birthday, which the
dot-join requires to be a list of strings (a missing key raises KeyError
and a non-string element raises TypeError; either aborts the run just as a
ValueError from strptime does, and the model folds the three aborts
together). -/
def birthdayTokens (j : Json) : Option (List String) :=
  match j.getKey "birthday" with
  | some (.arr items) =>
      items.foldr (fun x acc =>
        match x, acc with
        | .str s, some ss => some (s :: ss)
        | _, _ => none) (some [])
  | _ => none

/-- Python str.join with a dot separator. -/
def joinDot : List String → String
  | [] => ""
  | [s] => s
  | s :: rest => s ++ "." ++ joinDot rest

/-- The sort key of one record: the date parsed from its birthday tokens
joined with a dot. -/
def sortKey (j : Json) : Option Date :=
  (birthdayTokens j).bind (fun ts => parseDate (joinDot ts))

/-- Decoration step: CPython list.sort with a key function computes every
key before the first comparison, so one bad record aborts the sort before
anything is reordered.  Some list of (key, record) pairs iff every key
computes. -/
def decorate : List Json → Option (List (Date × Json))
  | [] => some []
  | p :: ps =>
      match sortKey p, decorate ps with
      | some d, some rest => some ((d, p) :: rest)
      | _, _ => none

/-- Comparison of decorated records by their date key. -/
def pairLE (a b : Date × Json) : Bool :=
  dateLE a.1 b.1

/-- Insert into a sorted list, after every element that is less-or-equal
(the order produced agrees with a stable sort, though the spec promises no
stability). -/
def insertLE (le : α → α → Bool) (x : α) : List α → List α
  | [] => [x]
  | y :: ys => if le y x then y :: insertLE le x ys else x :: y :: ys

/-- Comparison sort by repeated insertion.  The claims about the sort
concern only the ordering of its output, which any comparison sort by the
same key shares with CPython's stable mergesort. -/
def sortLE (le : α → α → Bool) (l : List α) : List α :=
  l.foldr (insertLE le) []

/-- The sort statement of main (ind1.py 197-201): compute every record's
key (ValueError aborts the run, surfaced here as malformedDateError), then
sort the records ascending by key. -/
def sortByBirthday (people : List Json) : Except RunError (List Json) :=
  match decorate people with
  | none => .error .malformedDateError
  | some dec => .ok ((sortLE pairLE dec).map Prod.snd)

/-!
The command-line entry point (source: main, ind1.py lines 119-212),
modelled from the parsed-arguments boundary on.  The add command carries
the required surname, name and birthday flags and the optional zodiac flag
(None when omitted); select carries the required surname flag.
-/

inductive Command where
  | add (surname name : String) (zodiac : Option String) (birthday : String)
  | select (surname : String)
  | display

def Command.isAdd : Command → Bool
  | .add _ _ _ _ => true
  | _ => false

/-- Observable outcome of a completed run: the final in-memory collection
and every save_people call performed, as (path, collection) pairs. -/
structure MainResult where
  people : List Json
  writes : List (String × List Json)

/-- Path.home() slash filename: joining the home directory and the
filename argument. -/
def homeResolve (home filename : String) : String :=
  home ++ "/" ++ filename

/-- main (ind1.py 119-212) after argument parsing: resolve home_path,
load only when home_path exists -- from args.filename as the source
does, not from home_path -- substitute the empty collection when load
returned None, run the command (add appends, sorts and marks dirty;
select and display only print), and save to home_path exactly when
dirty. -/
def Ind1.main (fs : FS) (home filename : String) (cmd : Command) :
    Except RunError MainResult :=
  let home_path := homeResolve home filename
  let loadStep : Except RunError (Option (List Json)) :=
    if (fs home_path).isSome then load_people fs filename else .ok none
  match loadStep with
  | .error e => .error e
  | .ok loaded =>
      let people := loaded.getD []
      match cmd with
      | .add s n z b =>
          match sortByBirthday (add_person people s n z b) with
          | .error e => .error e
          | .ok sorted => .ok ⟨sorted, [(home_path, sorted)]⟩
      | .select _ => .ok ⟨people, []⟩
      | .display => .ok ⟨people, []⟩

/-!
Further observations and spec-side predicates used by the statements.
-/

/-- The saves a run performed: a run that aborts with an error performs
none, because save_people is the final statement of main and every abort
happens before it. -/
def writesOf : Except RunError MainResult → List (String × List Json)
  | .ok r => r.writes
  | .error _ => []

/-- Comparison of two records by parsed birthday date, defined only when
both parse: the order the spec asserts of adjacent records after a sort. -/
def birthdayLE (p q : Json) : Bool :=
  match sortKey p, sortKey q with
  | some a, some b => dateLE a b
  | _, _ => false

/-- A record whose surname field is present and equals the query string:
the membership condition of the select claim. -/
def hasSurname (p : Json) (s : String) : Bool :=
  match p.getKey "surname" with
  | some (.str t) => t = s
  | _ => false

/-- Stated from the claim's words, for comparison with validation: an
object carrying a string surname, a string name, a birthday that is an
array of strings, and whose zodiac, when present, is a string. -/
def SpecValidPerson (p : Json) : Prop :=
  ∃ kvs, p = Json.obj kvs ∧
    (∃ s, Json.lookupKey kvs "surname" = some (.str s)) ∧
    (∃ s, Json.lookupKey kvs "name" = some (.str s)) ∧
    (∃ items, Json.lookupKey kvs "birthday" = some (.arr items) ∧
      ∀ x ∈ items, ∃ s, x = Json.str s) ∧
    (∀ v, Json.lookupKey kvs "zodiac" = some v → ∃ s, v = Json.str s)

/-- Stated from the claim's words: an array all of whose elements satisfy
SpecValidPerson. -/
def SpecValidDoc (d : Json) : Prop :=
  ∃ l, d = Json.arr l ∧ ∀ p ∈ l, SpecValidPerson p

/-!
Concrete fixtures for the witness statements.
-/

def recRoe : Json :=
  Json.obj [("surname", .str "Roe"), ("name", .str "Rick"), ("zodiac", .str ""),
    ("birthday", .arr [.str "01", .str "01", .str "1980"])]

def recDoe : Json :=
  Json.obj [("surname", .str "Doe"), ("name", .str "Jane"), ("zodiac", .str "Leo"),
    ("birthday", .arr [.str "15", .str "03", .str "1990"])]

def recBad : Json :=
  Json.obj [("surname", .str "X"), ("name", .str "Y"), ("zodiac", .str "Z"),
    ("birthday", .arr [.str "99", .str "99", .str "1990"])]

def recSmith : Json :=
  Json.obj [("surname", .str "Smith"), ("name", .str "Ann"), ("zodiac", .str "Leo"),
    ("birthday", .arr [.str "1", .str "1", .str "2000"])]

def recJones : Json :=
  Json.obj [("surname", .str "Jones"), ("name", .str "Bob"), ("zodiac", .str "Leo"),
    ("birthday", .arr [.str "2", .str "2", .str "2001"])]

/-- A document that parses but is schema-invalid. -/
def jBad : Json := .arr [.null]

/-- A file system whose every file holds text that is not valid JSON. -/
def fsMal : FS := fun _ => some .malformed

/-- A file system whose every file holds the schema-invalid document. -/
def fsInvalidDoc : FS := fun _ => some (.json jBad)

/-- The empty file system. -/
def fsEmpty : FS := fun _ => none

/-- A file system holding a valid document only at the home-resolved path
of f.json for home directory /home/u. -/
def fsHomeOnly : FS :=
  fun p => if p = "/home/u/f.json" then some (.json (.arr [recSmith])) else none

/-- A file system holding one valid document at the home-resolved path and
a different valid document at the bare filename (the cwd-relative path). -/
def fsBothPaths : FS :=
  fun p =>
    if p = "/home/u/f.json" then some (.json (.arr [recSmith]))
    else if p = "f.json" then some (.json (.arr [recJones]))
    else none

/-!
Helper lemmas about the sorter.
-/

theorem mem_insertLE {α : Type} (le : α → α → Bool) (x : α) :
    ∀ (l : List α) (a : α), a ∈ insertLE le x l → a = x ∨ a ∈ l := by
  intro l
  induction l with
  | nil =>
      intro a ha
      simp [insertLE] at ha
      exact Or.inl ha
  | cons y ys ih =>
      intro a ha
      by_cases hle : le y x = true
      · rw [show insertLE le x (y :: ys) = y :: insertLE le x ys by
          simp [insertLE, hle]] at ha
        rcases List.mem_cons.mp ha with h | h
        · exact Or.inr (List.mem_cons.mpr (Or.inl h))
        · rcases ih a h with h' | h'
          · exact Or.inl h'
          · exact Or.inr (List.mem_cons.mpr (Or.inr h'))
      · rw [show insertLE le x (y :: ys) = x :: y :: ys by
          simp [insertLE, hle]] at ha
        exact List.mem_cons.mp ha

theorem mem_sortLE {α : Type} (le : α → α → Bool) :
    ∀ (l : List α) (a : α), a ∈ sortLE le l → a ∈ l := by
  intro l
  induction l with
  | nil => intro a ha; simp [sortLE] at ha
  | cons x xs ih =>
      intro a ha
      rw [show sortLE le (x :: xs) = insertLE le x (sortLE le xs) from rfl] at ha
      rcases mem_insertLE le x _ a ha with h | h
      · exact List.mem_cons.mpr (Or.inl h)
      · exact List.mem_cons.mpr (Or.inr (ih a h))

theorem chain'_insertLE {α : Type} (le : α → α → Bool)
    (htot : ∀ a b, le a b = true ∨ le b a = true) (x : α) :
    ∀ (l : List α), l.Chain' (fun a b => le a b = true) →
      (insertLE le x l).Chain' (fun a b => le a b = true) := by
  intro l
  induction l with
  | nil => intro _; simp [insertLE]
  | cons y ys ih =>
      intro hch
      rw [List.chain'_cons'] at hch
      obtain ⟨hhead, htail⟩ := hch
      by_cases hle : le y x = true
      · rw [show insertLE le x (y :: ys) = y :: insertLE le x ys by
          simp [insertLE, hle]]
        rw [List.chain'_cons']
        refine ⟨?_, ih htail⟩
        intro z hz
        cases ys with
        | nil =>
            simp [insertLE] at hz
            subst hz
            exact hle
        | cons w ws =>
            by_cases hw : le w x = true
            · rw [show insertLE le x (w :: ws) = w :: insertLE le x ws by
                simp [insertLE, hw]] at hz
              simp at hz
              subst hz
              exact hhead w rfl
            · rw [show insertLE le x (w :: ws) = x :: w :: ws by
                simp [insertLE, hw]] at hz
              simp at hz
              subst hz
              exact hle
      · have hxy : le x y = true := by
          rcases htot x y with h | h
          · exact h
          · exact absurd h hle
        rw [show insertLE le x (y :: ys) = x :: y :: ys by
          simp [insertLE, hle]]
        rw [List.chain'_cons]
        exact ⟨hxy, List.chain'_cons'.mpr ⟨hhead, htail⟩⟩

theorem chain'_sortLE {α : Type} (le : α → α → Bool)
    (htot : ∀ a b, le a b = true ∨ le b a = true) :
    ∀ (l : List α), (sortLE le l).Chain' (fun a b => le a b = true) := by
  intro l
  induction l with
  | nil => simp [sortLE]
  | cons x xs ih => exact chain'_insertLE le htot x _ ih

theorem pairLE_total : ∀ a b : Date × Json, pairLE a b = true ∨ pairLE b a = true := by
  intro a b
  simp only [pairLE, dateLE, decide_eq_true_eq]
  omega

theorem decorate_eq_none (p : Json) :
    ∀ (people : List Json), p ∈ people → sortKey p = none → decorate people = none := by
  intro people
  induction people with
  | nil => intro h _; simp at h
  | cons q qs ih =>
      intro hmem hkey
      rcases List.mem_cons.mp hmem with h | h
      · subst h
        simp [decorate, hkey]
      · have hqs := ih h hkey
        cases hq : sortKey q <;> simp [decorate, hq, hqs]

theorem decorate_mem :
    ∀ (people : List Json) (dec : List (Date × Json)), decorate people = some dec →
      ∀ x ∈ dec, sortKey x.2 = some x.1 := by
  intro people
  induction people with
  | nil =>
      intro dec h x hx
      simp [decorate] at h
      subst h
      simp at hx
  | cons q qs ih =>
      intro dec h x hx
      cases hq : sortKey q with
      | none => simp [decorate, hq] at h
      | some d =>
          cases hrest : decorate qs with
          | none => simp [decorate, hq, hrest] at h
          | some rest =>
              simp [decorate, hq, hrest] at h
              subst h
              rcases List.mem_cons.mp hx with h' | h'
              · subst h'
                simpa using hq
              · exact ih rest hrest x h'

theorem chain'_map_snd :
    ∀ (dec : List (Date × Json)),
      (∀ x ∈ dec, sortKey x.2 = some x.1) →
      dec.Chain' (fun a b => pairLE a b = true) →
      (dec.map Prod.snd).Chain' (fun p q => birthdayLE p q = true) := by
  intro dec
  induction dec with
  | nil => intro _ _; simp
  | cons a rest ih =>
      intro hkeys hch
      cases rest with
      | nil => simp
      | cons b rest' =>
          rw [List.chain'_cons] at hch
          obtain ⟨hab, hrest⟩ := hch
          have ha := hkeys a (by simp)
          have hb := hkeys b (by simp)
          rw [List.map_cons, List.map_cons, List.chain'_cons]
          constructor
          · simp only [birthdayLE, ha, hb]
            exact hab
          · rw [← List.map_cons]
            exact ih (fun x hx => hkeys x (List.mem_cons.mpr (Or.inr hx))) hrest

theorem strsFold (ts : List String) :
    List.foldr (fun x acc =>
      match x, acc with
      | Json.str s, some ss => some (s :: ss)
      | _, _ => none) (some []) (ts.map Json.str) = some ts := by
  induction ts with
  | nil => rfl
  | cons t ts ih => simp [ih]

theorem decorate_isSome :
    ∀ (people : List Json), (∀ p ∈ people, (sortKey p).isSome = true) →
      ∃ dec, decorate people = some dec := by
  intro people
  induction people with
  | nil => intro _; exact ⟨[], rfl⟩
  | cons q qs ih =>
      intro h
      obtain ⟨dec, hdec⟩ := ih (fun p hp => h p (List.mem_cons.mpr (Or.inr hp)))
      have hq := h q (List.mem_cons.mpr (Or.inl rfl))
      cases hqk : sortKey q with
      | none => rw [hqk] at hq; cases hq
      | some d => exact ⟨(d, q) :: dec, by simp [decorate, hqk, hdec]⟩

/-- C1: for every collection whose every record's birthday tokens, joined
with a dot, parse as a valid day.month.year date, an add operation whose
birthday text also parses, followed by the sort, produces a collection in
which every adjacent pair (P1, P2) satisfies: the calendar date of P1's
birthday is at most the calendar date of P2's birthday. -/
theorem add_then_sort_is_chronological (coll : List Json) (s n : String)
    (z : Option String) (b : String)
    (hparse : ∀ p ∈ coll, ∃ ts, birthdayTokens p = some ts ∧
      (parseDate (joinDot ts)).isSome = true)
    (hb : (parseDate (joinDot (splitDot b))).isSome = true) :
    ∃ l, sortByBirthday (add_person coll s n z b) = .ok l
      ∧ l.Chain' (fun p q => birthdayLE p q = true) := by
  have hkeys : ∀ p ∈ add_person coll s n z b, (sortKey p).isSome = true := by
    intro p hp
    rcases List.mem_append.mp hp with h | h
    · obtain ⟨ts, hts, hsome⟩ := hparse p h
      simp [sortKey, hts, hsome]
    · rw [List.mem_singleton] at h
      subst h
      have hbt : birthdayTokens (Json.obj [("surname", .str s), ("name", .str n),
          ("zodiac", zodiacVal z), ("birthday", .arr ((splitDot b).map .str))])
          = some (splitDot b) := by
        simp [birthdayTokens, Json.getKey, Json.lookupKey, strsFold]
      simp [sortKey, hbt, hb]
  obtain ⟨dec, hdec⟩ := decorate_isSome _ hkeys
  refine ⟨(sortLE pairLE dec).map Prod.snd, ?_, ?_⟩
  · unfold sortByBirthday
    rw [hdec]
  · exact chain'_map_snd (sortLE pairLE dec)
      (fun x hx => decorate_mem _ dec hdec x (mem_sortLE pairLE dec x hx))
      (chain'_sortLE pairLE pairLE_total dec)

/-- Witness for C1 at the spec's own scenario: a collection holding Doe
born 15.03.1990, then add of Roe born 01.01.1980; the sort succeeds and
orders Roe before Doe. -/
theorem add_then_sort_is_chronological_witness :
    (∀ p ∈ [recDoe], ∃ ts, birthdayTokens p = some ts ∧
      (parseDate (joinDot ts)).isSome = true)
    ∧ (parseDate (joinDot (splitDot "01.01.1980"))).isSome = true
    ∧ ∃ l, sortByBirthday (add_person [recDoe] "Roe" "Rick" (some "") "01.01.1980")
        = .ok l ∧ l.Chain' (fun p q => birthdayLE p q = true) := by
  have h1 : ∀ p ∈ [recDoe], ∃ ts, birthdayTokens p = some ts ∧
      (parseDate (joinDot ts)).isSome = true := by
    intro p hp
    rw [List.mem_singleton] at hp
    subst hp
    exact ⟨["15", "03", "1990"], rfl, rfl⟩
  exact ⟨h1, rfl,
    add_then_sort_is_chronological [recDoe] "Roe" "Rick" (some "") "01.01.1980" h1 rfl⟩

/-- C6: if some record's birthday tokens cannot be parsed as a valid
day.month.year date, the sort fails with the malformed-date error instead
of producing a mis-ordered collection. -/
theorem sort_errors_on_unparseable_birthday (people : List Json) (p : Json)
    (hmem : p ∈ people) (ts : List String)
    (hts : birthdayTokens p = some ts)
    (hbad : parseDate (joinDot ts) = none) :
    sortByBirthday people = .error .malformedDateError := by
  have hkey : sortKey p = none := by
    simp [sortKey, hts, hbad]
  unfold sortByBirthday
  rw [decorate_eq_none p people hmem hkey]

/-- Witness for C6: a record whose birthday tokens are 99, 99, 1990 joins
to 99.99.1990, which is no valid date, and the sort on the collection
holding it errors. -/
theorem sort_errors_on_unparseable_birthday_witness :
    recBad ∈ [recBad]
    ∧ birthdayTokens recBad = some ["99", "99", "1990"]
    ∧ parseDate (joinDot ["99", "99", "1990"]) = none
    ∧ sortByBirthday [recBad] = .error .malformedDateError :=
  ⟨List.mem_singleton.mpr rfl, rfl, rfl,
    sort_errors_on_unparseable_birthday [recBad] recBad
      (List.mem_singleton.mpr rfl) ["99", "99", "1990"] rfl rfl⟩

/-!
Helper lemmas about the validator.
-/

theorem isStr_iff (x : Json) : x.isStr = true ↔ ∃ s, x = Json.str s := by
  cases x <;> simp [Json.isStr]

theorem isStrArr_iff (x : Json) :
    x.isStrArr = true ↔ ∃ items, x = Json.arr items ∧ ∀ y ∈ items, ∃ s, y = Json.str s := by
  cases x <;> simp [Json.isStrArr, List.all_eq_true, isStr_iff]

theorem validPerson_iff (p : Json) : validPerson p = true ↔ SpecValidPerson p := by
  cases p with
  | obj kvs =>
      simp only [validPerson, Bool.and_eq_true]
      constructor
      · rintro ⟨⟨⟨⟨⟨⟨h1, h2⟩, h3⟩, h4⟩, h5⟩, h6⟩, h7⟩
        refine ⟨kvs, rfl, ?_, ?_, ?_, ?_⟩
        · cases hs : Json.lookupKey kvs "surname" with
          | none => rw [hs] at h5; cases h5
          | some v =>
              simp only [propOk, hs] at h1
              obtain ⟨s, rfl⟩ := (isStr_iff v).mp h1
              exact ⟨s, rfl⟩
        · cases hs : Json.lookupKey kvs "name" with
          | none => rw [hs] at h6; cases h6
          | some v =>
              simp only [propOk, hs] at h2
              obtain ⟨s, rfl⟩ := (isStr_iff v).mp h2
              exact ⟨s, rfl⟩
        · cases hs : Json.lookupKey kvs "birthday" with
          | none => rw [hs] at h7; cases h7
          | some v =>
              simp only [propOk, hs] at h4
              obtain ⟨items, rfl, hitems⟩ := (isStrArr_iff v).mp h4
              exact ⟨items, rfl, hitems⟩
        · intro v hv
          simp only [propOk, hv] at h3
          exact (isStr_iff v).mp h3
      · rintro ⟨kvs', heq, ⟨s1, hs1⟩, ⟨s2, hs2⟩, ⟨items, hb, hbs⟩, hz⟩
        injection heq with heq'
        have hkk : kvs' = kvs := heq'.symm
        subst hkk
        refine ⟨⟨⟨⟨⟨⟨?_, ?_⟩, ?_⟩, ?_⟩, ?_⟩, ?_⟩, ?_⟩
        · simp [propOk, hs1, Json.isStr]
        · simp [propOk, hs2, Json.isStr]
        · cases hzv : Json.lookupKey kvs' "zodiac" with
          | none => simp [propOk, hzv]
          | some v =>
              obtain ⟨s, rfl⟩ := hz v hzv
              simp [propOk, hzv, Json.isStr]
        · simp only [propOk, hb]
          exact (isStrArr_iff _).mpr ⟨items, rfl, hbs⟩
        · rw [hs1]; rfl
        · rw [hs2]; rfl
        · rw [hb]; rfl
  | null => simp [validPerson, SpecValidPerson]
  | bool b => simp [validPerson, SpecValidPerson]
  | num n => simp [validPerson, SpecValidPerson]
  | str s => simp [validPerson, SpecValidPerson]
  | arr items => simp [validPerson, SpecValidPerson]

/-- C2: validation returns true iff the document is an array whose every
element is an object carrying at minimum a string surname, a string name
and a birthday that is an array of strings, and whose zodiac, when
present, is a string; any element missing one of the required keys or
carrying a wrong type for one of these fields makes it return false. -/
theorem validation_iff_spec_schema (d : Json) : validation d = true ↔ SpecValidDoc d := by
  cases d with
  | arr l =>
      simp only [validation, List.all_eq_true, SpecValidDoc]
      constructor
      · intro h
        exact ⟨l, rfl, fun p hp => (validPerson_iff p).mp (h p hp)⟩
      · rintro ⟨l', heq, h⟩
        injection heq with heq'
        subst heq'
        exact fun p hp => (validPerson_iff p).mpr (h p hp)
  | null => simp [validation, SpecValidDoc]
  | bool b => simp [validation, SpecValidDoc]
  | num n => simp [validation, SpecValidDoc]
  | str s => simp [validation, SpecValidDoc]
  | obj kvs => simp [validation, SpecValidDoc]

/-- C3: saving a collection that passes validation and loading from the
same path yields the same collection, record for record and in order. -/
theorem save_then_load_round_trip (fs : FS) (file_name : String)
    (people : List Json) (h : validation (.arr people) = true) :
    load_people (save_people fs file_name people) file_name = .ok (some people) := by
  simp [load_people, save_people, h]

/-- Witness for C3: a one-record valid collection survives the save and
load round trip. -/
theorem save_then_load_round_trip_witness :
    validation (.arr [recDoe]) = true
    ∧ load_people (save_people fsEmpty "f.json" [recDoe]) "f.json" = .ok (some [recDoe]) :=
  ⟨rfl, save_then_load_round_trip fsEmpty "f.json" [recDoe] rfl⟩

/-- C5: add splits the birthday text on the literal dot into the ordered
token sequence, appends exactly one record built from the four inputs to
the end of the collection and returns it, with no validation of token
count or numeric range; in particular the Doe/Jane/Leo/15.03.1990 example
of the spec yields the expected one-record collection. -/
theorem add_person_appends_split_record :
    (∀ (people : List Json) (s n : String) (z : Option String) (b : String),
      add_person people s n z b = people ++ [Json.obj [("surname", .str s),
        ("name", .str n), ("zodiac", zodiacVal z),
        ("birthday", .arr ((splitDot b).map .str))]])
    ∧ add_person [] "Doe" "Jane" (some "Leo") "15.03.1990"
        = [Json.obj [("surname", .str "Doe"), ("name", .str "Jane"),
            ("zodiac", .str "Leo"),
            ("birthday", .arr [.str "15", .str "03", .str "1990"])]] :=
  ⟨fun _ _ _ _ _ => rfl, rfl⟩

/-- C10: a record added with the zodiac flag omitted carries a zodiac key
whose value is null, the collection holding it fails validation, and a
document saved from it is rejected as schema-invalid on the next load
(load returns the None sentinel). -/
theorem add_none_zodiac_breaks_validation (people : List Json) (s n b : String) :
    add_person people s n none b = people ++ [Json.obj [("surname", .str s),
      ("name", .str n), ("zodiac", .null),
      ("birthday", .arr ((splitDot b).map .str))]]
    ∧ (Json.obj [("surname", .str s), ("name", .str n), ("zodiac", .null),
        ("birthday", .arr ((splitDot b).map .str))]).getKey "zodiac" = some .null
    ∧ validation (.arr (add_person people s n none b)) = false
    ∧ ∀ fs fn, load_people (save_people fs fn (add_person people s n none b)) fn
        = .ok none := by
  have hvp : validPerson (Json.obj [("surname", .str s), ("name", .str n),
      ("zodiac", .null), ("birthday", .arr ((splitDot b).map .str))]) = false := rfl
  have hval : validation (.arr (add_person people s n none b)) = false := by
    simp [validation, add_person, List.all_append, hvp, zodiacVal]
  refine ⟨rfl, rfl, hval, ?_⟩
  intro fs fn
  simp [load_people, save_people, hval]

/-- C7: a load of an existing file whose text is malformed JSON is a
fatal error propagated out of the run, while a file that parses but fails
schema validation makes load return the None sentinel and the run
continues with the empty collection. -/
theorem load_failure_policy (j : Json) (hbad : validation j = false) :
    (∀ (fs : FS) fn, fs fn = some .malformed →
      load_people fs fn = .error .parseFailure)
    ∧ (∀ (fs : FS) fn, fs fn = some (.json j) → load_people fs fn = .ok none)
    ∧ (∀ (fs : FS) home fn, fs (homeResolve home fn) = some (.json j) →
        fs fn = some (.json j) → Ind1.main fs home fn .display = .ok ⟨[], []⟩)
    ∧ (∀ (fs : FS) home fn, fs (homeResolve home fn) = some .malformed →
        fs fn = some .malformed →
        Ind1.main fs home fn .display = .error .parseFailure) := by
  have h2 : ∀ (fs : FS) fn, fs fn = some (.json j) → load_people fs fn = .ok none := by
    intro fs fn hfs
    cases j with
    | arr l => simp [load_people, hfs, hbad]
    | null => simp [load_people, hfs]
    | bool b => simp [load_people, hfs]
    | num n => simp [load_people, hfs]
    | str s => simp [load_people, hfs]
    | obj kvs => simp [load_people, hfs]
  refine ⟨?_, h2, ?_, ?_⟩
  · intro fs fn hfs
    simp [load_people, hfs]
  · intro fs home fn hhome hfn
    have hload := h2 fs fn hfn
    simp [Ind1.main, hhome, hload]
  · intro fs home fn hhome hfn
    simp [Ind1.main, hhome, load_people, hfn]

/-- Witness for C7: with every file holding the schema-invalid document,
load returns the sentinel and a display run completes on the empty
collection; with every file malformed, load and the whole run fail with
the parse error. -/
theorem load_failure_policy_witness :
    validation jBad = false
    ∧ load_people fsMal "f.json" = .error .parseFailure
    ∧ load_people fsInvalidDoc "f.json" = .ok none
    ∧ Ind1.main fsInvalidDoc "/home/u" "f.json" .display = .ok ⟨[], []⟩
    ∧ Ind1.main fsMal "/home/u" "f.json" .display = .error .parseFailure := by
  have h := load_failure_policy jBad rfl
  exact ⟨rfl, h.1 fsMal "f.json" rfl, h.2.1 fsInvalidDoc "f.json" rfl,
    h.2.2.1 fsInvalidDoc "/home/u" "f.json" rfl rfl,
    h.2.2.2 fsMal "/home/u" "f.json" rfl rfl⟩

/-- The accumulating loop of select_people equals an append of the filter
of the remaining records. -/
theorem select_people_loop (surname : String) :
    ∀ (people acc : List Json),
      people.foldl (fun result i =>
        if eqStr (i.getD "surname" (.str "")) surname then result ++ [i] else result) acc
      = acc ++ people.filter (fun i => eqStr (i.getD "surname" (.str "")) surname) := by
  intro people
  induction people with
  | nil => intro acc; simp
  | cons x xs ih =>
      intro acc
      rw [List.foldl_cons, List.filter_cons]
      by_cases hx : eqStr (x.getD "surname" (.str "")) surname = true
      · rw [if_pos hx, ih]
        simp [hx]
      · rw [if_neg hx, ih]
        simp [hx]

/-- C4: on a collection of records that each carry a string surname,
select returns exactly the subsequence of records whose surname equals
the query string under case-sensitive exact equality, in their original
relative order, and the empty sequence when nothing matches. -/
theorem select_people_exact_match (surname : String) (people : List Json)
    (h : ∀ p ∈ people, ∃ s, p.getKey "surname" = some (.str s)) :
    select_people surname people = people.filter (fun p => hasSurname p surname)
    ∧ (people.filter (fun p => hasSurname p surname)).Sublist people
    ∧ ((∀ p ∈ people, hasSurname p surname = false) →
        select_people surname people = []) := by
  have hfe : select_people surname people
      = people.filter (fun i => eqStr (i.getD "surname" (.str "")) surname) := by
    unfold select_people
    rw [select_people_loop]
    simp
  have hcong : people.filter (fun i => eqStr (i.getD "surname" (.str "")) surname)
      = people.filter (fun p => hasSurname p surname) := by
    apply List.filter_congr
    intro p hp
    obtain ⟨s, hs⟩ := h p hp
    simp [Json.getD, hs, eqStr, hasSurname]
  refine ⟨hfe.trans hcong, List.filter_sublist _, ?_⟩
  intro hnone
  rw [hfe, hcong]
  rw [List.filter_eq_nil_iff]
  intro p hp
  simp [hnone p hp]

/-- Witness for C4: in a two-record collection, selecting Smith returns
exactly the Smith record. -/
theorem select_people_exact_match_witness :
    (∀ p ∈ [recSmith, recJones], ∃ s, p.getKey "surname" = some (.str s))
    ∧ (select_people "Smith" [recSmith, recJones]
        = List.filter (fun p => hasSurname p "Smith") [recSmith, recJones]
      ∧ (List.filter (fun p => hasSurname p "Smith") [recSmith, recJones]).Sublist
          [recSmith, recJones]
      ∧ ((∀ p ∈ [recSmith, recJones], hasSurname p "Smith" = false) →
          select_people "Smith" [recSmith, recJones] = [])) := by
  have h : ∀ p ∈ [recSmith, recJones], ∃ s, p.getKey "surname" = some (.str s) := by
    intro p hp
    rcases List.mem_cons.mp hp with rfl | hp'
    · exact ⟨"Smith", rfl⟩
    · rw [List.mem_singleton] at hp'
      subst hp'
      exact ⟨"Jones", rfl⟩
  exact ⟨h, select_people_exact_match "Smith" [recSmith, recJones] h⟩

/-- C8 counterexample: an add invocation whose birthday text does not
parse aborts during the sort, before the dirty flag is set, so no save
is executed although the command was add -- refuting save if and only if
the command was add. -/
theorem add_without_save_counterexample :
    Command.isAdd (.add "A" "B" none "garbage") = true
    ∧ writesOf (Ind1.main fsEmpty "/home/u" "f.json" (.add "A" "B" none "garbage"))
        = [] :=
  ⟨rfl, rfl⟩

/-- C8 amended: in an invocation that completes without an error, save is
executed (to the home-resolved path, with the final collection) exactly
when the command was add; select and display runs perform no write. -/
theorem save_exactly_on_add_when_run_completes (fs : FS) (home fn : String)
    (cmd : Command) (r : MainResult)
    (h : Ind1.main fs home fn cmd = .ok r) :
    (cmd.isAdd = true → r.writes = [(homeResolve home fn, r.people)])
    ∧ (cmd.isAdd = false → r.writes = []) := by
  unfold Ind1.main at h
  dsimp only at h
  cases hls : (if (fs (homeResolve home fn)).isSome
      then load_people fs fn else Except.ok none) with
  | error e =>
      rw [hls] at h
      simp at h
  | ok loaded =>
      rw [hls] at h
      cases cmd with
      | add s n z b =>
          simp only at h
          cases hs : sortByBirthday (add_person (loaded.getD []) s n z b) with
          | error e => rw [hs] at h; simp at h
          | ok sorted =>
              rw [hs] at h
              simp only [Except.ok.injEq] at h
              subst h
              exact ⟨fun _ => rfl, fun hc => by cases hc⟩
      | select s =>
          simp only [Except.ok.injEq] at h
          subst h
          exact ⟨(fun hc => by cases hc), fun _ => rfl⟩
      | display =>
          simp only [Except.ok.injEq] at h
          subst h
          exact ⟨(fun hc => by cases hc), fun _ => rfl⟩

/-- Witness for C8 amended: a completing add run writes once to the
home-resolved path, and a completing display run writes nothing. -/
theorem save_exactly_on_add_witness :
    Ind1.main fsEmpty "/home/u" "f.json" (.add "Doe" "Jane" none "15.03.1990")
      = .ok ⟨[Json.obj [("surname", .str "Doe"), ("name", .str "Jane"),
          ("zodiac", .null), ("birthday", .arr [.str "15", .str "03", .str "1990"])]],
        [("/home/u/f.json", [Json.obj [("surname", .str "Doe"), ("name", .str "Jane"),
          ("zodiac", .null), ("birthday", .arr [.str "15", .str "03", .str "1990"])]])]⟩
    ∧ (Command.isAdd (.add "Doe" "Jane" none "15.03.1990") = true →
        [("/home/u/f.json", [Json.obj [("surname", .str "Doe"), ("name", .str "Jane"),
          ("zodiac", .null), ("birthday", .arr [.str "15", .str "03", .str "1990"])]])]
        = [(homeResolve "/home/u" "f.json",
            [Json.obj [("surname", .str "Doe"), ("name", .str "Jane"),
              ("zodiac", .null),
              ("birthday", .arr [.str "15", .str "03", .str "1990"])]])]) := by
  have h : Ind1.main fsEmpty "/home/u" "f.json" (.add "Doe" "Jane" none "15.03.1990")
      = .ok ⟨[Json.obj [("surname", .str "Doe"), ("name", .str "Jane"),
          ("zodiac", .null), ("birthday", .arr [.str "15", .str "03", .str "1990"])]],
        [("/home/u/f.json", [Json.obj [("surname", .str "Doe"), ("name", .str "Jane"),
          ("zodiac", .null),
          ("birthday", .arr [.str "15", .str "03", .str "1990"])]])]⟩ := rfl
  exact ⟨h, (save_exactly_on_add_when_run_completes fsEmpty "/home/u" "f.json"
    (.add "Doe" "Jane" none "15.03.1990") _ h).1⟩

/-- C9: the code checks existence of and saves to the home-resolved path,
but loads from the bare filename resolved against the current working
directory.  With a valid document present only at the home-resolved path
the run aborts with a file-not-found error; with different documents at
the two paths a display run shows the one at the bare filename; an add
run on an absent file saves to the home-resolved path. -/
theorem load_reads_cwd_path_not_home :
    Ind1.main fsHomeOnly "/home/u" "f.json" .display = .error .ioError
    ∧ Ind1.main fsBothPaths "/home/u" "f.json" .display = .ok ⟨[recJones], []⟩
    ∧ Ind1.main fsEmpty "/home/u" "f.json" (.add "Doe" "Jane" none "15.03.1990")
        = .ok ⟨[Json.obj [("surname", .str "Doe"), ("name", .str "Jane"),
            ("zodiac", .null),
            ("birthday", .arr [.str "15", .str "03", .str "1990"])]],
          [("/home/u/f.json", [Json.obj [("surname", .str "Doe"),
            ("name", .str "Jane"), ("zodiac", .null),
            ("birthday", .arr [.str "15", .str "03", .str "1990"])]])]⟩ :=
  ⟨rfl, rfl, rfl⟩
